import Mathlib

/-!
# Verification of the ARIMA estimation core

A shallow embedding, over `ℚ`, of the statistical estimation core of the
`arima` crate (`src/util.rs`, `src/acf.rs`, `src/estimate.rs`), together
with theorems settling the specification claims about it.

Machine floating point (`f64`) is modelled by exact rational arithmetic:
all claims under study concern the algebraic shape of the computations
(index ranges, recursions, error branches), not rounding behaviour.
Division by zero in `ℚ` is total (yielding `0`) just as `f64` division is
total (yielding `inf`/`NaN`); no claim below depends on the value produced
by a zero division, only on whether an error is signalled.
-/

namespace Arima

/-- The crate's `ArimaError` (`src/lib.rs`): a unit struct carrying no
information.  None of the embedded functions ever constructs it — a fact
some of the claims turn on. -/
structure ArimaError where
  mk ::

/-! ## `src/util.rs` -/

/-- `util::mean`: `fold (+) 0 x / n` (division by zero when `x` is empty,
as in the source where it yields `NaN`). -/
def mean (x : List ℚ) : ℚ :=
  x.foldl (fun sum item => sum + item) 0 / (x.length : ℚ)

/-- One in-place pass `s` of `util::diff`'s outer loop:
`for i in 1..len-s { y[len-i] = y[len-i] - y[len-i-1] }`.
Iterating downwards means `y[j-1]` is always the not-yet-updated value, so
the pass maps `y[j] ↦ y[j] - y[j-1]` for `j ≥ s+1` and fixes `y[j]` for
`j ≤ s`. -/
def diffPass (s : ℕ) (y : List ℚ) : List ℚ :=
  (List.range y.length).map
    (fun j => if j ≤ s then y.getD j 0 else y.getD j 0 - y.getD (j - 1) 0)

/-- `util::diff`: run passes `s = 0, …, d-1`, then `y.drain(0..d)`.
(The `drain` panics in Rust when `d > len`; the embedding's `List.drop` is
total, and every theorem below stays inside `d ≤` length.) -/
def diff (x : List ℚ) (d : ℕ) : List ℚ :=
  ((List.range d).foldl (fun y s => diffPass s y) x).drop d

/-- `util::cumsum`, including its short-input branch: an input of length
`< 2` yields the one-element vector `[0]`; otherwise `y[0] = x[0]` and
`y[i] = y[i-1] + x[i]`. -/
def cumsum (x : List ℚ) : List ℚ :=
  if x.length < 2 then [0]
  else
    match x with
    | [] => [0]
    | a :: t => List.scanl (fun acc b => acc + b) a t

/-- `util::diffinv`: prepend `d` zeros, then apply `cumsum` `d` times. -/
def diffinv (x : List ℚ) (d : ℕ) : List ℚ :=
  cumsum^[d] (List.replicate d 0 ++ x)

/-- Mathematical single pairwise difference `[x₁-x₀, x₂-x₁, …]`, used to
characterise `diff`. -/
def pdiff (y : List ℚ) : List ℚ :=
  List.zipWith (fun a b => b - a) y y.tail

/-! ## `src/acf.rs`: `acf` -/

/-- The `max_lag` defaulting/clamping at the top of `acf::acf`:
`Some m ↦ min m (n-1)`, `None ↦ n-1`. -/
def acfClamp (x : List ℚ) (maxLag : Option ℕ) : ℕ :=
  match maxLag with
  | some m => min m (x.length - 1)
  | none => x.length - 1

/-- The inner accumulation of `acf::acf` at lag `t`:
`for i in 0..n-t { y[t] += (x[i]-mean)*(x[i+t]-mean) / n }`
(each term divided by `n` inside the loop, as in the source). -/
def acfCov (x : List ℚ) (t : ℕ) : ℚ :=
  ∑ i in Finset.range (x.length - t),
    (x.getD i 0 - mean x) * (x.getD (i + t) 0 - mean x) / (x.length : ℚ)

/-- `acf::acf`.  In correlation mode each `y[t]`, `t > 0`, is divided by
`y[0]` while `y[0]` still holds the lag-0 covariance, and `y[0]` is set to
`1.0` after the loop.  Note the source contains no length validation and
no `Err` branch: it always returns `Ok`. -/
def acf (x : List ℚ) (maxLag : Option ℕ) (covariance : Bool) :
    Except ArimaError (List ℚ) :=
  let m := acfClamp x maxLag + 1
  if covariance then .ok ((List.range m).map (fun t => acfCov x t))
  else .ok ((List.range m).map
    (fun t => if t = 0 then 1 else acfCov x t / acfCov x 0))

/-! ## `src/acf.rs`: `ar_dl_rho_cov` (Durbin-Levinson) -/

/-- The `order` defaulting/clamping at the top of `acf::ar_dl_rho_cov`
(and of `acf::pacf_rho_cov0`). -/
def dlClamp (rho : List ℚ) (order : Option ℕ) : ℕ :=
  match order with
  | some o => min o (rho.length - 1)
  | none => rho.length - 1

/-- One iteration `i ≥ 1` of the Durbin-Levinson loop in
`acf::ar_dl_rho_cov`, acting on the previous row `(phi[i-1], var[i-1])`.
With `j = k - 1` for the source's loop variable `k ∈ 1..i`:
numerator sum `phi[i-1][k-1] * rho[i-k]`, denominator
`1 - Σ phi[i-1][k-1] * rho[k]`, update
`phi[i][k-1] = phi[i-1][k-1] - phi_ii * phi[i-1][i-k-1]` and
`phi[i][i-1] = phi_ii`, `var[i] = var[i-1] * (1 - phi_ii²)`.
There is no check on the denominator. -/
def dlStep (rho : List ℚ) (i : ℕ) (st : List ℚ × ℚ) : List ℚ × ℚ :=
  let num_sum := ∑ j in Finset.range (i - 1), st.1.getD j 0 * rho.getD (i - 1 - j) 0
  let den_sum := 1 - ∑ j in Finset.range (i - 1), st.1.getD j 0 * rho.getD (j + 1) 0
  let phi_ii := (rho.getD i 0 - num_sum) / den_sum
  ((List.range (i - 1)).map
      (fun j => st.1.getD j 0 - phi_ii * st.1.getD (i - j - 2) 0) ++ [phi_ii],
    st.2 * (1 - phi_ii * phi_ii))

/-- The rows `(phi[i], var[i])` of `acf::ar_dl_rho_cov`'s loop, starting
from the zero-order initialisation `phi[0] = vec![0.0]` (a one-element
vector!), `var[0] = cov0`. -/
def dlIter (rho : List ℚ) (cov0 : ℚ) : ℕ → List ℚ × ℚ
  | 0 => ([0], cov0)
  | i + 1 => dlStep rho (i + 1) (dlIter rho cov0 i)

/-- `acf::ar_dl_rho_cov`: clamp the order, run the recursion, and return
`Ok((phi[order], var[order]))`.  The source has no `Err` branch. -/
def ar_dl_rho_cov (rho : List ℚ) (cov0 : ℚ) (order : Option ℕ) :
    Except ArimaError (List ℚ × ℚ) :=
  .ok (dlIter rho cov0 (dlClamp rho order))

/-- The denominator `1 - Σ_{k=1}^{i-1} phi_{i-1,k}·rho_k` that step `i` of
`ar_dl_rho_cov` divides by (extracted for the singularity claim). -/
def dlDen (rho : List ℚ) (cov0 : ℚ) (i : ℕ) : ℚ :=
  1 - ∑ j in Finset.range (i - 1),
    (dlIter rho cov0 (i - 1)).1.getD j 0 * rho.getD (j + 1) 0

/-! Spec-side Durbin-Levinson recursion, written from the specification's
formulas (`phi_ii`, `var_i`, `phi_i,k` for `k = 1..i-1`) with `rho` as an
abstract sequence and 1-based coefficient indices.  Used to state the
refinement claim that the source loop computes exactly this recursion. -/

/-- Modelled from the spec: row `i` of the Durbin-Levinson coefficient
table, as the function `k ↦ phi_{i,k}`.  Row `0` is empty (every entry
`0`); row `i` sets `phi_{i,i} = (rho_i − Σ_{k=1}^{i-1} phi_{i-1,k}·rho_{i-k})
/ (1 − Σ_{k=1}^{i-1} phi_{i-1,k}·rho_k)` and
`phi_{i,k} = phi_{i-1,k} − phi_{i,i}·phi_{i-1,i-k}` for `k = 1..i-1`. -/
def phiRow (rho : ℕ → ℚ) : ℕ → ℕ → ℚ
  | 0 => fun _ => 0
  | i + 1 =>
    let prev := phiRow rho i
    let pii := (rho (i + 1) - ∑ k in Finset.Icc 1 i, prev k * rho (i + 1 - k)) /
      (1 - ∑ k in Finset.Icc 1 i, prev k * rho k)
    fun k => if k = i + 1 then pii else prev k - pii * prev (i + 1 - k)

/-- Modelled from the spec: the reflection coefficient `phi_{i,i}` of
Durbin-Levinson step `i ≥ 1`. -/
def phiII (rho : ℕ → ℚ) (i : ℕ) : ℚ :=
  (rho i - ∑ k in Finset.Icc 1 (i - 1), phiRow rho (i - 1) k * rho (i - k)) /
    (1 - ∑ k in Finset.Icc 1 (i - 1), phiRow rho (i - 1) k * rho k)

/-- Modelled from the spec: the Durbin-Levinson prediction variance,
`var_0 = cov0`, `var_i = var_{i-1}·(1 − phi_{i,i}²)`. -/
def varRow (rho : ℕ → ℚ) (cov0 : ℚ) : ℕ → ℚ
  | 0 => cov0
  | i + 1 => varRow rho cov0 i * (1 - phiII rho (i + 1) * phiII rho (i + 1))

/-- The autocorrelation list viewed as the abstract sequence the spec's
formulas index (out-of-range lags read as `0`, matching the embedding's
`getD`; the theorems only evaluate it in range). -/
def rhoSeq (rho : List ℚ) : ℕ → ℚ := fun k => rho.getD k 0

/-! ## `src/estimate.rs`: `residuals` -/

/-- The predicted-value/residual body of `estimate::residuals` at time
`t`, reading already-computed residuals from `r`:
`x[t] - (intercept + Σ_{j<len φ} φ[j]·x[t-j-1]
              + Σ_{j<min(len θ, t)} θ[j]·r[t-j-1])`. -/
def resBody (x : List ℚ) (intercept : ℚ) (phi theta : List ℚ)
    (r : List ℚ) (t : ℕ) : ℚ :=
  x.getD t 0 - (intercept
    + (∑ j in Finset.range phi.length, phi.getD j 0 * x.getD (t - j - 1) 0)
    + ∑ j in Finset.range (min theta.length t), theta.getD j 0 * r.getD (t - j - 1) 0)

/-- The forward pass of `estimate::residuals`: start from `len φ` zeros,
then push one residual for each `t ∈ [len φ, len x)`. -/
def residualsCore (x : List ℚ) (intercept : ℚ) (phi theta : List ℚ) : List ℚ :=
  (List.range' phi.length (x.length - phi.length)).foldl
    (fun r t => r ++ [resBody x intercept phi theta r t])
    (List.replicate phi.length 0)

/-- `estimate::residuals` (the `Option` coefficient arguments default to
empty slices via `unwrap_or`, as in the source).  Errors, via
`anyhow::bail!`, exactly when `len x < len φ` or `len x < len θ`. -/
def residuals (x : List ℚ) (intercept : ℚ)
    (phi theta : Option (List ℚ)) : Except String (List ℚ) :=
  let phi := phi.getD []
  let theta := theta.getD []
  if x.length < phi.length ∨ x.length < theta.length then
    .error "Too many items in phi or theta"
  else
    .ok (residualsCore x intercept phi theta)

/-! ## `src/acf.rs`: `pacf` chain (needed by `fit`'s seed) -/

/-- `acf::pacf_rho_cov0`: for `i in 1..max_lag+1`, run `ar_dl_rho_cov` at
order `i` and keep the last coefficient `coef[i-1]`. -/
def pacf_rho_cov0 (rho : List ℚ) (cov0 : ℚ) (maxLag : Option ℕ) :
    Except ArimaError (List ℚ) :=
  .ok ((List.range' 1 (dlClamp rho maxLag)).map
    (fun i => (dlIter rho cov0 (dlClamp rho (some i))).1.getD (i - 1) 0))

/-- `acf::pacf`: autocorrelations, lag-0 autocovariance, then
`pacf_rho_cov0`. -/
def pacf (x : List ℚ) (maxLag : Option ℕ) : Except ArimaError (List ℚ) :=
  match acf x maxLag false, acf x (some 0) true with
  | .ok rho, .ok covs => pacf_rho_cov0 rho (covs.getD 0 0) maxLag
  | .error e, _ => .error e
  | _, .error e => .error e

/-! ## `src/estimate.rs`: `fit`

The L-BFGS minimizer (`liblbfgs`) and the finite-difference gradient
(`finitediff`) are external crates, out of scope per the spec; the
minimizer is therefore a parameter.  It receives the CSS objective and
the initial coefficient vector and returns the final coefficient vector
(the source's `minimize` mutates `coef` in place) together with an
optional error.  The `Option` layer of the embedding models Rust panics
(`unwrap`, `assert_eq!`, out-of-range `drain`): `none` = panic. -/

/-- The CSS objective closure `f` inside `estimate::fit`:
`assert_eq!(coef.len(), 1+ar+ma)` (panic = `none`), split
`[intercept, phi, theta]`, then `residuals(..).unwrap()` (panic = `none`
on error) and sum of squared residuals. -/
def fitObjective (x : List ℚ) (ar ma : ℕ) (coef : List ℚ) : Option ℚ :=
  if coef.length = 1 + ar + ma then
    match residuals x (coef.getD 0 0) (some ((coef.drop 1).take ar))
        (some (coef.drop (1 + ar))) with
    | .ok r => some (r.foldl (fun css v => css + v * v) 0)
    | .error _ => none
  else none

/-- The initial-guess construction in `estimate::fit`: intercept =
`util::mean(x)`, then (if `ar > 0`) the PACF values at lags `1..ar`
(`pacf(&x, Some(ar)).unwrap()`, panic = `none` on error), then `ma`
ones. -/
def fitSeed (x : List ℚ) (ar ma : ℕ) : Option (List ℚ) :=
  let base := [mean x]
  let withAr :=
    if 0 < ar then
      match pacf x (some ar) with
      | .ok p => some (base ++ p)
      | .error _ => none
    else some base
  withAr.map (fun c => c ++ List.replicate ma 1)

/-- `estimate::fit`, parametric in the external minimizer.  Differencing
is applied first (`util::diff` panics when `d > len x`: `none`); the seed
is built; the minimizer runs; an error from the minimizer is only logged
(`tracing::warn!`) and the coefficient vector it produced is returned as
`Ok` regardless. -/
def fit (minimize : (List ℚ → Option ℚ) → List ℚ → List ℚ × Option String)
    (x : List ℚ) (ar d ma : ℕ) : Option (Except ArimaError (List ℚ)) :=
  if x.length < d then none
  else
    let xd := diff x d
    match fitSeed xd ar ma with
    | none => none
    | some coef0 =>
      let result := minimize (fitObjective xd ar ma) coef0
      some (.ok result.1)

/-! ## Helper lemmas -/

lemma getD_map_range (f : ℕ → ℚ) {m t : ℕ} (h : t < m) :
    ((List.range m).map f).getD t 0 = f t := by
  rw [List.getD_eq_getElem _ _ (by simpa using h)]
  simp

lemma acf_true (x : List ℚ) (ml : Option ℕ) :
    acf x ml true =
      .ok ((List.range (acfClamp x ml + 1)).map (fun t => acfCov x t)) :=
  rfl

lemma acf_false (x : List ℚ) (ml : Option ℕ) :
    acf x ml false =
      .ok ((List.range (acfClamp x ml + 1)).map
        (fun t => if t = 0 then 1 else acfCov x t / acfCov x 0)) :=
  rfl

lemma dlIter_len (rho : List ℚ) (cov0 : ℚ) (i : ℕ) :
    (dlIter rho cov0 i).1.length = max i 1 := by
  cases i with
  | zero => simp [dlIter]
  | succ n => simp [dlIter, dlStep]

/-! ## Claim C1 -/

/-- C1: for a series of length `n ≥ 2` and any requested `max_lag`
(defaulted/clamped by `acfClamp` to at most `n-1`), `acf` returns `Ok` of
a vector of length `clamp+1`; in covariance mode entry `t` is
`Σ_{i=0}^{n-t-1} (x_i − mean)(x_{i+t} − mean)` divided by `n`; in
correlation mode entry `0` is exactly `1` and entry `t > 0` is the lag-t
covariance divided by the lag-0 covariance. -/
theorem claim1_acf (x : List ℚ) (ml : Option ℕ) (cov : Bool)
    (_hn : 2 ≤ x.length) :
    ∃ v, acf x ml cov = .ok v ∧ v.length = acfClamp x ml + 1 ∧
      ∀ t ≤ acfClamp x ml,
        (cov = true →
          v.getD t 0 = (∑ i in Finset.range (x.length - t),
            (x.getD i 0 - mean x) * (x.getD (i + t) 0 - mean x)) /
              (x.length : ℚ)) ∧
        (cov = false →
          v.getD 0 0 = 1 ∧ (0 < t →
            v.getD t 0 =
              ((∑ i in Finset.range (x.length - t),
                (x.getD i 0 - mean x) * (x.getD (i + t) 0 - mean x)) /
                  (x.length : ℚ)) /
              ((∑ i in Finset.range x.length,
                (x.getD i 0 - mean x) * (x.getD i 0 - mean x)) /
                  (x.length : ℚ)))) := by
  have hcov : ∀ t, acfCov x t = (∑ i in Finset.range (x.length - t),
      (x.getD i 0 - mean x) * (x.getD (i + t) 0 - mean x)) /
        (x.length : ℚ) := by
    intro t
    rw [acfCov, Finset.sum_div]
  have hcov0 : acfCov x 0 = (∑ i in Finset.range x.length,
      (x.getD i 0 - mean x) * (x.getD i 0 - mean x)) / (x.length : ℚ) := by
    rw [hcov 0]
    simp
  cases cov with
  | true =>
    refine ⟨_, acf_true x ml, by simp, ?_⟩
    intro t ht
    constructor
    · intro _
      rw [getD_map_range _ (by omega), hcov]
    · intro h
      cases h
  | false =>
    refine ⟨_, acf_false x ml, by simp, ?_⟩
    intro t ht
    constructor
    · intro h
      cases h
    · intro _
      constructor
      · rw [getD_map_range _ (by omega)]
        simp
      · intro htpos
        rw [getD_map_range _ (by omega), if_neg (by omega), hcov, hcov0]

/-- C1, witness at `x = [0, 1]` (`n = 2`), default `max_lag`, covariance
mode. -/
theorem claim1_witness :
    2 ≤ ([(0 : ℚ), 1] : List ℚ).length ∧
    (∃ v, acf [0, 1] none true = .ok v ∧
      v.length = acfClamp [0, 1] none + 1 ∧
      ∀ t ≤ acfClamp [0, 1] none,
        (true = true →
          v.getD t 0 = (∑ i in Finset.range (([(0 : ℚ), 1] : List ℚ).length - t),
            (([(0 : ℚ), 1] : List ℚ).getD i 0 - mean [0, 1]) *
              (([(0 : ℚ), 1] : List ℚ).getD (i + t) 0 - mean [0, 1])) /
              (([(0 : ℚ), 1] : List ℚ).length : ℚ)) ∧
        (true = false →
          v.getD 0 0 = 1 ∧ (0 < t →
            v.getD t 0 =
              ((∑ i in Finset.range (([(0 : ℚ), 1] : List ℚ).length - t),
                (([(0 : ℚ), 1] : List ℚ).getD i 0 - mean [0, 1]) *
                  (([(0 : ℚ), 1] : List ℚ).getD (i + t) 0 - mean [0, 1])) /
                  (([(0 : ℚ), 1] : List ℚ).length : ℚ)) /
              ((∑ i in Finset.range ([(0 : ℚ), 1] : List ℚ).length,
                (([(0 : ℚ), 1] : List ℚ).getD i 0 - mean [0, 1]) *
                  (([(0 : ℚ), 1] : List ℚ).getD i 0 - mean [0, 1])) /
                  (([(0 : ℚ), 1] : List ℚ).length : ℚ))))) :=
  ⟨by norm_num, claim1_acf [0, 1] none true (by norm_num)⟩

/-! ## Claim C2 -/

lemma sum_Icc_one (f : ℕ → ℚ) (n : ℕ) :
    ∑ k in Finset.Icc 1 n, f k = ∑ j in Finset.range n, f (j + 1) := by
  rw [← Nat.Ico_succ_right, Finset.sum_Ico_eq_sum_range]
  exact Finset.sum_congr (by simp) fun j _ => by rw [Nat.add_comm]

lemma phiRow_diag (rho : ℕ → ℚ) (i : ℕ) :
    phiRow rho (i + 1) (i + 1) = phiII rho (i + 1) := by
  rw [phiRow, phiII]
  simp

lemma phiRow_low (rho : ℕ → ℚ) (i k : ℕ) (h : k ≠ i + 1) :
    phiRow rho (i + 1) k =
      phiRow rho i k - phiII rho (i + 1) * phiRow rho i (i + 1 - k) := by
  rw [phiRow, phiII]
  simp [h]

lemma phiII_eq (rho : ℕ → ℚ) (n : ℕ) :
    phiII rho (n + 1) =
      (rho (n + 1) - ∑ j in Finset.range n, phiRow rho n (j + 1) * rho (n - j)) /
        (1 - ∑ j in Finset.range n, phiRow rho n (j + 1) * rho (j + 1)) := by
  rw [phiII]
  simp only [Nat.add_sub_cancel, sum_Icc_one, Nat.succ_sub_succ_eq_sub,
    Nat.sub_zero]

lemma dlIter_eq_spec (rho : List ℚ) (cov0 : ℚ) (i : ℕ) (hi : 1 ≤ i) :
    dlIter rho cov0 i =
      ((List.range i).map (fun j => phiRow (rhoSeq rho) i (j + 1)),
        varRow (rhoSeq rho) cov0 i) := by
  induction i with
  | zero => omega
  | succ n ih =>
    have hstep : ∀ st : List ℚ × ℚ,
        (∀ j, j < n → st.1.getD j 0 = phiRow (rhoSeq rho) n (j + 1)) →
        st.2 = varRow (rhoSeq rho) cov0 n →
        dlStep rho (n + 1) st =
          ((List.range (n + 1)).map
            (fun j => phiRow (rhoSeq rho) (n + 1) (j + 1)),
            varRow (rhoSeq rho) cov0 (n + 1)) := by
      intro st h1 h2
      have hnum : ∑ j in Finset.range n, st.1.getD j 0 * rho.getD (n - j) 0 =
          ∑ j in Finset.range n,
            phiRow (rhoSeq rho) n (j + 1) * rhoSeq rho (n - j) :=
        Finset.sum_congr rfl fun j hj => by
          rw [h1 j (Finset.mem_range.mp hj)]; rfl
      have hden : ∑ j in Finset.range n, st.1.getD j 0 * rho.getD (j + 1) 0 =
          ∑ j in Finset.range n,
            phiRow (rhoSeq rho) n (j + 1) * rhoSeq rho (j + 1) :=
        Finset.sum_congr rfl fun j hj => by
          rw [h1 j (Finset.mem_range.mp hj)]; rfl
      have hpii : (rho.getD (n + 1) 0 -
            ∑ j in Finset.range n, st.1.getD j 0 * rho.getD (n - j) 0) /
            (1 - ∑ j in Finset.range n, st.1.getD j 0 * rho.getD (j + 1) 0) =
          phiII (rhoSeq rho) (n + 1) := by
        rw [hnum, hden, phiII_eq]
        rfl
      rw [dlStep]
      simp only [Nat.add_sub_cancel]
      rw [hpii, h2]
      simp only [Prod.mk.injEq]
      constructor
      · rw [List.range_succ, List.map_append]
        congr 1
        · refine List.map_congr_left fun j hj => ?_
          have hjn : j < n := List.mem_range.mp hj
          rw [h1 j hjn, h1 (n + 1 - j - 2) (by omega),
            phiRow_low _ _ _ (by omega)]
          have hidx : n + 1 - j - 2 + 1 = n + 1 - (j + 1) := by omega
          rw [hidx]
        · simp only [List.map_cons, List.map_nil]
          rw [phiRow_diag]
      · rfl
    cases Nat.eq_zero_or_pos n with
    | inl h0 =>
      subst h0
      exact hstep ([0], cov0) (fun j hj => absurd hj (Nat.not_lt_zero j)) rfl
    | inr hpos =>
      show dlStep rho (n + 1) (dlIter rho cov0 n) = _
      rw [ih hpos]
      exact hstep _ (fun j hj => getD_map_range _ hj) rfl

/-- C2: whenever the clamped order is ≥ 1 (the zero-order initialisation
row is C7's concern), `ar_dl_rho_cov` returns `Ok` of exactly the
spec's Durbin-Levinson recursion: the final-row coefficients
`phi_{order,1} .. phi_{order,order}` (as given by `phiRow`, the literal
transcription of the spec's `phi_ii`/`phi_i,k` formulas) together with
the final variance `var_order` (`varRow`, i.e. `var_0 = cov0` and
`var_i = var_{i-1}·(1 − phi_ii²)`).  The order argument is defaulted and
clamped by `dlClamp` exactly as the claim states. -/
theorem claim2_dl (rho : List ℚ) (cov0 : ℚ) (ord : Option ℕ)
    (h1 : 1 ≤ dlClamp rho ord) :
    ar_dl_rho_cov rho cov0 ord = .ok
      ((List.range (dlClamp rho ord)).map
        (fun j => phiRow (rhoSeq rho) (dlClamp rho ord) (j + 1)),
       varRow (rhoSeq rho) cov0 (dlClamp rho ord)) := by
  rw [ar_dl_rho_cov, dlIter_eq_spec rho cov0 _ h1]

/-- C2, witness at `rho = [1, 2]`, `cov0 = 5`, requested order 1. -/
theorem claim2_witness :
    1 ≤ dlClamp [1, 2] (some 1) ∧
    ar_dl_rho_cov [1, 2] 5 (some 1) = .ok
      ((List.range (dlClamp [1, 2] (some 1))).map
        (fun j => phiRow (rhoSeq [1, 2]) (dlClamp [1, 2] (some 1)) (j + 1)),
       varRow (rhoSeq [1, 2]) 5 (dlClamp [1, 2] (some 1))) :=
  ⟨by norm_num [dlClamp], claim2_dl [1, 2] 5 (some 1) (by norm_num [dlClamp])⟩

/-! ## Claim C3 -/

lemma foldl_append_len (body : List ℚ → ℕ → ℚ) (l : List ℕ) (r : List ℚ) :
    (l.foldl (fun r t => r ++ [body r t]) r).length = r.length + l.length := by
  induction l generalizing r with
  | nil => simp
  | cons a l ih =>
    rw [List.foldl_cons, ih]
    simp
    omega

lemma foldl_append_getD (body : List ℚ → ℕ → ℚ) (l : List ℕ) (r : List ℚ)
    (i : ℕ) (hi : i < r.length) :
    (l.foldl (fun r t => r ++ [body r t]) r).getD i 0 = r.getD i 0 := by
  induction l generalizing r with
  | nil => rfl
  | cons a l ih =>
    rw [List.foldl_cons, ih _ (by simp; omega)]
    exact List.getD_append _ _ _ _ hi

lemma foldl_append_entry (body : List ℚ → ℕ → ℚ)
    (hbody : ∀ r₁ r₂ t, (∀ p, p < t → r₁.getD p 0 = r₂.getD p 0) →
      body r₁ t = body r₂ t) :
    ∀ (len start : ℕ) (r : List ℚ), r.length = start →
      ∀ t, start ≤ t → t < start + len →
        ((List.range' start len).foldl (fun r t => r ++ [body r t]) r).getD t 0 =
          body ((List.range' start len).foldl
            (fun r t => r ++ [body r t]) r) t := by
  intro len
  induction len with
  | zero => omega
  | succ len ih =>
    intro start r hr t hst hlt
    rw [List.range'_succ, List.foldl_cons]
    have hr' : (r ++ [body r start]).length = start + 1 := by simp [hr]
    rcases eq_or_lt_of_le hst with heq | hlt2
    · subst heq
      rw [foldl_append_getD _ _ _ _ (by omega)]
      have hbase : (r ++ [body r start]).getD start 0 = body r start := by
        rw [List.getD_append_right _ _ _ _ (by omega)]
        simp [hr]
      rw [hbase]
      refine hbody _ _ _ fun p hp => ?_
      rw [foldl_append_getD _ _ _ _ (by omega),
        List.getD_append _ _ _ _ (by omega)]
    · have := ih (start + 1) (r ++ [body r start]) hr' t hlt2 (by omega)
      exact this

lemma resBody_congr (x : List ℚ) (ic : ℚ) (phi theta : List ℚ)
    (r₁ r₂ : List ℚ) (t : ℕ)
    (h : ∀ p, p < t → r₁.getD p 0 = r₂.getD p 0) :
    resBody x ic phi theta r₁ t = resBody x ic phi theta r₂ t := by
  unfold resBody
  congr 1
  congr 1
  refine Finset.sum_congr rfl fun j hj => ?_
  have hjt : j < t :=
    lt_of_lt_of_le (Finset.mem_range.mp hj) (min_le_right _ _)
  rw [h (t - j - 1) (by omega)]

/-- C3: under the dimension precondition, `residuals` returns `Ok` of a
vector of length `len x` whose first `len phi` entries are exactly `0`
and whose entry at each `t ≥ len phi` equals `x[t]` minus the prediction
`intercept + Σ_j phi_j·x[t−j−1] + Σ_j theta_j·res[t−j−1]`, the MA sum
running over the first `min (len theta) t` terms and reading the output
vector itself (the residuals computed earlier in the same pass). -/
theorem claim3_residuals (x : List ℚ) (ic : ℚ) (phi theta : List ℚ)
    (hp : phi.length ≤ x.length) (ht : theta.length ≤ x.length) :
    ∃ r, residuals x ic (some phi) (some theta) = .ok r ∧
      r.length = x.length ∧
      (∀ t, t < phi.length → r.getD t 0 = 0) ∧
      (∀ t, phi.length ≤ t → t < x.length →
        r.getD t 0 = x.getD t 0 - (ic
          + (∑ j in Finset.range phi.length,
              phi.getD j 0 * x.getD (t - j - 1) 0)
          + ∑ j in Finset.range (min theta.length t),
              theta.getD j 0 * r.getD (t - j - 1) 0)) := by
  refine ⟨residualsCore x ic phi theta, ?_, ?_, ?_, ?_⟩
  · unfold residuals
    simp only [Option.getD_some]
    rw [if_neg (by omega)]
  · unfold residualsCore
    rw [foldl_append_len]
    simp
    omega
  · intro t htl
    unfold residualsCore
    rw [foldl_append_getD _ _ _ _ (by simpa using htl)]
    rw [List.getD_eq_getElem _ _ (by simpa using htl)]
    simp
  · intro t ht1 ht2
    have := foldl_append_entry (resBody x ic phi theta)
      (resBody_congr x ic phi theta) (x.length - phi.length) phi.length
      (List.replicate phi.length 0) (by simp) t ht1 (by omega)
    simpa only [residualsCore, resBody] using this

/-- C3, witness at the source doctest input
`x = [1.0, 1.2, 1.4, 1.6]`, `intercept = 0`, `phi = [0.6, 0.4]`,
`theta = [0.3]`. -/
theorem claim3_witness :
    ([(3:ℚ)/5, 2/5].length ≤ ([1, 6/5, 7/5, 8/5] : List ℚ).length) ∧
    ∃ r, residuals [1, 6/5, 7/5, 8/5] 0 (some [3/5, 2/5]) (some [3/10]) =
        .ok r ∧
      r.length = ([1, 6/5, 7/5, 8/5] : List ℚ).length ∧
      (∀ t, t < ([(3:ℚ)/5, 2/5] : List ℚ).length → r.getD t 0 = 0) ∧
      (∀ t, ([(3:ℚ)/5, 2/5] : List ℚ).length ≤ t →
          t < ([1, 6/5, 7/5, 8/5] : List ℚ).length →
        r.getD t 0 = ([1, 6/5, 7/5, 8/5] : List ℚ).getD t 0 - (0
          + (∑ j in Finset.range ([(3:ℚ)/5, 2/5] : List ℚ).length,
              ([(3:ℚ)/5, 2/5] : List ℚ).getD j 0 *
                ([1, 6/5, 7/5, 8/5] : List ℚ).getD (t - j - 1) 0)
          + ∑ j in Finset.range (min ([(3:ℚ)/10] : List ℚ).length t),
              ([(3:ℚ)/10] : List ℚ).getD j 0 * r.getD (t - j - 1) 0)) :=
  ⟨by norm_num,
    claim3_residuals [1, 6/5, 7/5, 8/5] 0 [3/5, 2/5] [3/10]
      (by norm_num) (by norm_num)⟩

/-! ## Claim C4 -/

/-- C4, counterexample.  At `rho = [1,1,1]`, `cov0 = 1`, `order = 2` the
Durbin-Levinson denominator of step 2 is exactly `0`
(`phi_{1,1} = rho_1 = 1`, so `1 - phi_{1,1}·rho_1 = 0`), yet
`ar_dl_rho_cov` does not fail: it returns an `Ok` value. -/
theorem claim4_counterexample :
    dlDen [1, 1, 1] 1 2 = 0 ∧
      (ar_dl_rho_cov [1, 1, 1] 1 (some 2)).isOk = true := by
  constructor
  · norm_num [dlDen, dlIter, dlStep, List.range_succ, Finset.sum_range_succ]
  · rfl

/-- C4, amended: `ar_dl_rho_cov` contains no singularity (epsilon) check
at all; whatever the inputs — including a zero denominator at some step —
it returns `Ok` of the recursion's output, never a `SingularSystem`
(or any other) error. -/
theorem claim4_no_singularity_check (rho : List ℚ) (cov0 : ℚ)
    (ord : Option ℕ) :
    ar_dl_rho_cov rho cov0 ord = .ok (dlIter rho cov0 (dlClamp rho ord)) :=
  rfl

/-! ## Claim C5 -/

/-- C5, counterexample.  For the length-1 series `[5]` (so `n = 1 < 2`),
`acf` does not fail with an error: it returns `Ok [0]` in covariance
mode. -/
theorem claim5_counterexample :
    acf [5] none true = .ok [0] := by
  norm_num [acf, acfClamp, acfCov, mean, List.range_succ,
    Finset.sum_range_succ]

/-- C5, amended: `acf` performs no input-length validation.  For every
series of length exactly 1 it returns `Ok` — the one-element vector `[0]`
in covariance mode and `[1]` in correlation mode — instead of an
`InputTooShort` error.  (For length 0 the Rust source underflows
`x.len() - 1`, a panic in debug builds, still not a typed error.) -/
theorem claim5_acf_no_length_check (x : List ℚ) (ml : Option ℕ)
    (cov : Bool) (h : x.length = 1) :
    acf x ml cov = .ok [if cov then 0 else 1] := by
  match x, h with
  | [a], _ =>
    rcases ml with _ | m <;> cases cov <;>
      norm_num [acf, acfClamp, acfCov, mean, List.range_succ,
        Finset.sum_range_succ]

/-- C5, witness for the amended theorem at `x = [3]`, `max_lag = 5`,
correlation mode. -/
theorem claim5_witness :
    ([(3 : ℚ)].length = 1) ∧ acf [3] (some 5) false = .ok [1] :=
  ⟨by norm_num, claim5_acf_no_length_check [3] (some 5) false (by norm_num)⟩

/-! ## Claim C7 -/

/-- C7, counterexample.  At `rho = [1]`, `cov0 = 1`, requested order `0`
(clamped order `0`), the returned coefficient vector is the
initialisation row `[0]` of length 1 — not the empty vector of length
equal to the clamped order. -/
theorem claim7_counterexample :
    ar_dl_rho_cov [1] 1 (some 0) = .ok ([0], 1) ∧
      dlClamp [1] (some 0) = 0 ∧ ([(0 : ℚ)].length ≠ 0) := by
  refine ⟨rfl, rfl, by norm_num⟩

/-- C7, amended: the coefficient vector returned by `ar_dl_rho_cov` has
length `max (clamped order) 1`: exactly the clamped order whenever that
order is ≥ 1, but the order-0 vector is `[0]` (length 1, the loop's
zero-order initialisation), not empty. -/
theorem claim7_len (rho : List ℚ) (cov0 : ℚ) (ord : Option ℕ) :
    ∃ p, ar_dl_rho_cov rho cov0 ord = .ok p ∧
      p.1.length = max (dlClamp rho ord) 1 :=
  ⟨_, rfl, dlIter_len rho cov0 (dlClamp rho ord)⟩

/-! ## Claim C8 -/

/-- C8: `residuals` fails — with the single `anyhow` error the source can
produce, the spec's `DimensionMismatch` — exactly when
`len x < len phi` or `len x < len theta`; on every other input it
returns `Ok` of the forward pass. -/
theorem claim8_residuals_dim_check (x : List ℚ) (ic : ℚ)
    (phi theta : Option (List ℚ)) :
    (residuals x ic phi theta = .error "Too many items in phi or theta" ↔
      (x.length < (phi.getD []).length ∨ x.length < (theta.getD []).length)) ∧
    (¬ (x.length < (phi.getD []).length ∨ x.length < (theta.getD []).length) →
      residuals x ic phi theta =
        .ok (residualsCore x ic (phi.getD []) (theta.getD []))) := by
  unfold residuals
  dsimp only
  constructor
  · split <;> simp_all
  · intro h
    split <;> simp_all

/-- C8, witness: at the doctest input the condition fails and the
residual vector is returned. -/
theorem claim8_witness :
    ¬ (([1, 6/5, 7/5, 8/5] : List ℚ).length <
        ((some [3/5, 2/5] : Option (List ℚ)).getD []).length ∨
       ([1, 6/5, 7/5, 8/5] : List ℚ).length <
        ((some [3/10] : Option (List ℚ)).getD []).length) ∧
    residuals [1, 6/5, 7/5, 8/5] 0 (some [3/5, 2/5]) (some [3/10]) =
      .ok (residualsCore [1, 6/5, 7/5, 8/5] 0 [3/5, 2/5] [3/10]) :=
  ⟨by norm_num,
    (claim8_residuals_dim_check [1, 6/5, 7/5, 8/5] 0 (some [3/5, 2/5])
      (some [3/10])).2 (by norm_num)⟩

/-! ## Claim C9 -/

lemma pdiff_length (y : List ℚ) : (pdiff y).length = y.length - 1 := by
  simp [pdiff]

lemma pdiff_iter_length (d : ℕ) (x : List ℚ) :
    (pdiff^[d] x).length = x.length - d := by
  induction d generalizing x with
  | zero => simp
  | succ d ih =>
    rw [Function.iterate_succ_apply, ih, pdiff_length]
    omega

lemma diffPass_drop (s : ℕ) (y : List ℚ) :
    (diffPass s y).drop (s + 1) = pdiff (y.drop s) := by
  refine List.ext_getElem ?_ ?_
  · simp [diffPass, pdiff]
    omega
  · intro i h1 h2
    simp only [List.getElem_drop, diffPass, List.getElem_map,
      List.getElem_range, pdiff, List.getElem_zipWith, List.tail_drop]
    rw [if_neg (by omega)]
    have hlen : s + 1 + i < y.length := by
      simp [diffPass] at h1
      omega
    rw [List.getD_eq_getElem _ _ (by omega), List.getD_eq_getElem _ _ (by omega)]
    congr 2
    omega

lemma diff_eq_pdiff (x : List ℚ) (d : ℕ) : diff x d = pdiff^[d] x := by
  unfold diff
  induction d with
  | zero => simp
  | succ d ih =>
    rw [List.range_succ, List.foldl_append, List.foldl_cons, List.foldl_nil,
      diffPass_drop, ih, Function.iterate_succ_apply']

lemma pdiff_cons_cons (p q : ℚ) (l : List ℚ) :
    pdiff (p :: q :: l) = (q - p) :: pdiff (q :: l) := rfl

lemma scanl_eq_head_tail (c : ℚ) (l : List ℚ) :
    List.scanl (fun acc b => acc + b) c l =
      c :: (List.scanl (fun acc b => acc + b) c l).tail := by
  cases l <;> rfl

lemma pdiff_scanl (t : List ℚ) (a : ℚ) :
    pdiff (List.scanl (fun acc b => acc + b) a t) = t := by
  induction t generalizing a with
  | nil => rfl
  | cons b t ih =>
    rw [List.scanl_cons, List.singleton_append,
      scanl_eq_head_tail (a + b) t, pdiff_cons_cons,
      ← scanl_eq_head_tail (a + b) t, ih, add_sub_cancel_left]

lemma pdiff_cumsum (v : List ℚ) : pdiff (cumsum v) = v.tail := by
  match v with
  | [] => rfl
  | [a] => rfl
  | a :: b :: t =>
    rw [cumsum, if_neg (by simp)]
    exact pdiff_scanl (b :: t) a

lemma pdiff_tail (u : List ℚ) : pdiff u.tail = (pdiff u).tail := by
  match u with
  | [] => rfl
  | [a] => rfl
  | a :: b :: t =>
    rw [pdiff_cons_cons]
    rfl

lemma pdiff_iter_tail (d : ℕ) (u : List ℚ) :
    pdiff^[d] u.tail = (pdiff^[d] u).tail := by
  induction d generalizing u with
  | zero => rfl
  | succ d ih =>
    rw [Function.iterate_succ_apply, Function.iterate_succ_apply,
      pdiff_tail, ih]

lemma pdiff_iter_cumsum_iter (d : ℕ) (w : List ℚ) :
    pdiff^[d] (cumsum^[d] w) = w.drop d := by
  induction d generalizing w with
  | zero => rfl
  | succ d ih =>
    rw [Function.iterate_succ_apply (f := pdiff),
      Function.iterate_succ_apply' (f := cumsum), pdiff_cumsum,
      pdiff_iter_tail, ih, List.tail_drop]

lemma cumsum_length (v : List ℚ) : (cumsum v).length = max 1 v.length := by
  match v with
  | [] => rfl
  | [a] => rfl
  | a :: b :: t =>
    rw [cumsum, if_neg (by simp)]
    simp [List.length_scanl]

lemma cumsum_iter_length (d : ℕ) (w : List ℚ) :
    (cumsum^[d + 1] w).length = max 1 w.length := by
  induction d generalizing w with
  | zero => simpa using cumsum_length w
  | succ d ih =>
    rw [Function.iterate_succ_apply, ih, cumsum_length]
    omega

lemma scanl_zero_replicate (k : ℕ) (t : List ℚ) :
    List.scanl (fun acc b => acc + b) 0 (List.replicate k 0 ++ t) =
      List.replicate (k + 1) 0 ++
        (List.scanl (fun acc b => acc + b) 0 t).tail := by
  induction k with
  | zero => simpa using scanl_eq_head_tail 0 t
  | succ k ih =>
    rw [List.replicate_succ, List.cons_append, List.scanl_cons, add_zero, ih,
      List.replicate_succ (n := k + 1), List.cons_append]
    simp

lemma cumsum_replicate (d : ℕ) (hd : 1 ≤ d) (y : List ℚ) :
    ∃ z : List ℚ, cumsum (List.replicate d 0 ++ y) =
      List.replicate d 0 ++ z ∧ z.length = y.length := by
  obtain ⟨e, rfl⟩ : ∃ e, d = e + 1 := ⟨d - 1, by omega⟩
  rw [List.replicate_succ, List.cons_append]
  by_cases hlen : ((0 : ℚ) :: (List.replicate e (0 : ℚ) ++ y)).length < 2
  · have he : e = 0 := by
      simp at hlen
      omega
    have hy : y = [] := by
      refine List.length_eq_zero.mp ?_
      simp at hlen
      omega
    subst he
    subst hy
    exact ⟨[], rfl, rfl⟩
  · rw [cumsum, if_neg hlen]
    refine ⟨(List.scanl (fun acc b => acc + b) 0 y).tail, ?_, ?_⟩
    · simpa [List.replicate_succ] using scanl_zero_replicate e y
    · simp [List.length_scanl]

lemma cumsum_iter_replicate (d : ℕ) (hd : 1 ≤ d) (x : List ℚ) (m : ℕ) :
    ∃ y : List ℚ, cumsum^[m] (List.replicate d 0 ++ x) =
      List.replicate d 0 ++ y ∧ y.length = x.length := by
  induction m with
  | zero => exact ⟨x, rfl, rfl⟩
  | succ m ih =>
    obtain ⟨y, hy, hylen⟩ := ih
    obtain ⟨z, hz, hzlen⟩ := cumsum_replicate d hd y
    exact ⟨z, by rw [Function.iterate_succ_apply', hy, hz], by omega⟩

/-- C9, counterexample.  At `x = [1, 2]`, `d = 1`:
`diff(x, 1) = [1]`, `diffinv([1], 1) = [0, 1]`, and discarding the one
leading zero leaves `[1]`, which does not reproduce `x = [1, 2]` — the
round trip in the claimed order loses the initial values consumed by
differencing. -/
theorem claim9_counterexample :
    (diffinv (diff [1, 2] 1) 1).drop 1 ≠ [1, 2] := by
  have h : (diffinv (diff [1, 2] 1) 1).drop 1 = [1] := by
    norm_num [diff, diffPass, diffinv, cumsum, List.replicate, List.scanl,
      List.range_succ]
  rw [h]
  simp

/-- C9, amended: the exact round trip holds in the opposite composition
order — `diff(diffinv(x, d), d) = x` exactly, for every `x` and `d` (this
is the identity the source's own doctest asserts).  The length claims
stand as stated: `diff(x, d)` has length `len x − d`, and `diffinv(x, d)`
has length `len x + d` with its first `d` entries zero.  The claimed
composition `diffinv(diff(x, d), d)` instead reproduces only the
differenced information: its tail after the `d` zeros is `diff(x, d)`
cumulatively re-summed, which drops the `d` initial conditions of `x`
(see the counterexample). -/
theorem claim9_roundtrip (x : List ℚ) (d : ℕ) :
    diff (diffinv x d) d = x ∧
    (diffinv x d).length = x.length + d ∧
    (diffinv x d).take d = List.replicate d 0 ∧
    (diff x d).length = x.length - d := by
  refine ⟨?_, ?_, ?_, ?_⟩
  · rw [diff_eq_pdiff, diffinv, pdiff_iter_cumsum_iter,
      List.drop_left' (List.length_replicate d 0)]
  · cases d with
    | zero => simp [diffinv]
    | succ d =>
      rw [diffinv, cumsum_iter_length]
      simp
      omega
  · cases d with
    | zero => simp
    | succ d =>
      obtain ⟨y, hy, _⟩ :=
        cumsum_iter_replicate (d + 1) (by omega) x (d + 1)
      rw [diffinv, hy, List.take_left' (List.length_replicate (d + 1) 0)]
  · rw [diff_eq_pdiff, pdiff_iter_length]

/-! ## Claim C6 -/

/-- C6: when `fit` runs to the optimizer call (differencing applicable,
seed construction succeeded) and the external minimizer reports an
error, `fit` still returns `Ok` of the coefficient vector the minimizer
left behind — the source only logs the error (`tracing::warn!`) and
falls through to `Ok(coef)`, so an optimizer failure never makes `fit`
return an error value. -/
theorem claim6_fit_swallows_optimizer_error
    (minimize : (List ℚ → Option ℚ) → List ℚ → List ℚ × Option String)
    (x : List ℚ) (ar d ma : ℕ) (coef0 coefF : List ℚ) (err : String)
    (hd : d ≤ x.length)
    (hseed : fitSeed (diff x d) ar ma = some coef0)
    (hmin : minimize (fitObjective (diff x d) ar ma) coef0 =
      (coefF, some err)) :
    fit minimize x ar d ma = some (.ok coefF) := by
  have hnlt : ¬ x.length < d := by omega
  simp [fit, if_neg hnlt, hseed, hmin]

/-- C6, witness: a minimizer that always reports a line-search failure
still yields `Ok` of its coefficient vector. -/
theorem claim6_witness :
    fitSeed (diff [1, 2] 0) 0 0 = some [3/2] ∧
    fit (fun _ c => (c, some "line search failed")) [1, 2] 0 0 0 =
      some (.ok [3/2]) := by
  have hseed : fitSeed (diff [1, 2] 0) 0 0 = some [3/2] := by
    norm_num [fitSeed, mean, diff, List.replicate]
  exact ⟨hseed,
    claim6_fit_swallows_optimizer_error _ [1, 2] 0 0 0 [3/2] [3/2]
      "line search failed" (by norm_num) hseed rfl⟩

/-! ## Claim C10 -/

lemma residuals_ok (x : List ℚ) (ic : ℚ) (phi theta : List ℚ)
    (hp : phi.length ≤ x.length) (ht : theta.length ≤ x.length) :
    residuals x ic (some phi) (some theta) =
      .ok (residualsCore x ic phi theta) := by
  unfold residuals
  simp only [Option.getD_some]
  rw [if_neg (by omega)]

lemma pacf_ok (x : List ℚ) (k : ℕ) :
    ∃ p, pacf x (some k) = .ok p ∧ p.length = min k (x.length - 1) := by
  unfold pacf
  rw [acf_false, acf_true]
  refine ⟨_, rfl, ?_⟩
  simp [pacf_rho_cov0, dlClamp, acfClamp]

lemma fitSeed_ok (x : List ℚ) (ar ma : ℕ)
    (har : ar = 0 ∨ ar + 1 ≤ x.length) :
    ∃ c, fitSeed x ar ma = some c ∧ c.length = 1 + ar + ma := by
  unfold fitSeed
  dsimp only
  by_cases hpos : 0 < ar
  · rw [if_pos hpos]
    obtain ⟨p, hp, hplen⟩ := pacf_ok x ar
    rw [hp]
    refine ⟨_, rfl, ?_⟩
    have : ar + 1 ≤ x.length := by omega
    simp [hplen]
    omega
  · have h0 : ar = 0 := by omega
    subst h0
    rw [if_neg hpos]
    exact ⟨_, rfl, by simp; omega⟩

lemma diff_length (x : List ℚ) (d : ℕ) :
    (diff x d).length = x.length - d := by
  rw [diff_eq_pdiff, pdiff_iter_length]

/-- C10: under the implicit precondition that the differenced series is
long enough — `ar + 1 ≤ len x − d` when `ar > 0`, and `ma ≤ len x − d` —
the panic sites inside `fit` are unreachable: the seed construction
(whose `pacf(…).unwrap()` and length assertion they cover) produces
`some` vector of length `1 + ar + ma`, and the CSS objective (whose
`residuals(…).unwrap()` and `assert_eq!` they cover) evaluates to `some`
on every coefficient vector of that length.  Violating the precondition
panics instead of returning an error: at `x = [1, 2]`, `ar = 0`,
`d = 0`, `ma = 3` the seed is built but the objective evaluates to
`none` — the `residuals` unwrap panics on the optimizer's very first
objective evaluation. -/
theorem claim10_fit_preconditions (x : List ℚ) (ar d ma : ℕ) :
    ((d ≤ x.length → (ar = 0 ∨ ar + 1 ≤ x.length - d) →
      ma ≤ x.length - d →
      (∃ c, fitSeed (diff x d) ar ma = some c ∧ c.length = 1 + ar + ma) ∧
      ∀ coef, coef.length = 1 + ar + ma →
        (fitObjective (diff x d) ar ma coef).isSome = true)) ∧
    (fitSeed (diff [1, 2] 0) 0 3 = some [3/2, 1, 1, 1] ∧
      fitObjective (diff [1, 2] 0) 0 3 [3/2, 1, 1, 1] = none) := by
  constructor
  · intro hd har hma
    have hxd : (diff x d).length = x.length - d := diff_length x d
    constructor
    · exact fitSeed_ok (diff x d) ar ma (by omega)
    · intro coef hclen
      unfold fitObjective
      rw [if_pos hclen]
      have hphi : ((coef.drop 1).take ar).length = ar := by
        simp
        omega
      have hth : (coef.drop (1 + ar)).length = ma := by
        simp
        omega
      rw [residuals_ok _ _ _ _ (by omega) (by omega)]
      rfl
  · constructor
    · norm_num [fitSeed, mean, diff, List.replicate]
    · norm_num [fitObjective, residuals, diff]

/-- C10, witness: the precondition part applied at `x = [1, 2, 3]`,
`ar = 1`, `d = 0`, `ma = 1`. -/
theorem claim10_witness :
    (1 + 1 ≤ ([1, 2, 3] : List ℚ).length - 0) ∧
    (∃ c, fitSeed (diff [1, 2, 3] 0) 1 1 = some c ∧ c.length = 1 + 1 + 1) ∧
    ∀ coef, coef.length = 1 + 1 + 1 →
      (fitObjective (diff [1, 2, 3] 0) 1 1 coef).isSome = true :=
  ⟨by norm_num,
    (claim10_fit_preconditions [1, 2, 3] 1 0 1).1 (by norm_num)
      (Or.inr (by norm_num)) (by norm_num)⟩

end Arima

